import Mathlib

/-!
Shallow embedding of the single-node blockchain ledger
(`Block_Chain_Code.ipynb`): dataclasses `Transaction` and `Block`, class
`BlockchainNode` with `submit_transaction`, `mine_block`,
`validate_chain` and `get_balance`, plus theorems settling the stated
properties of that code.

Modelling conventions:
* Python `float` amounts and timestamps are exact rationals.
* The external primitives the notebook imports (`hashlib.sha256`
  hex digests, `rsa.verify`, Python `str` on floats and on transaction
  lists) are opaque parameters, collected in `Prim`; the code under
  verification never inspects their output beyond equality and the
  difficulty predicate, so every theorem is parametric in them.
* A Python attribute that may not exist yet (`validation_failure_reason`
  is created only inside the failure branch of `Transaction.validate`)
  is an `Option` that is `none` while the attribute is absent; reading
  it while absent raises `AttributeError`.
* Raised exceptions are explicit values (`PyError`); an operation that
  can raise returns the exception alongside the state it leaves behind.
* The unbounded `while` loop of the proof-of-work search runs on
  explicit fuel; `none` stands for a call that has not returned.
-/

namespace BlockChain

/-- An `rsa.PublicKey(n, e)`, used as an opaque equality-comparable
address; `PublicKey(0, 0)` is the reward (system) address. -/
structure PublicKey where
  n : Nat
  e : Nat
deriving DecidableEq, Repr

/-- Python `str` of an `rsa.PublicKey`, as interpolated into the signed
core data of a transaction. -/
def strPublicKey (k : PublicKey) : String :=
  "PublicKey(" ++ Nat.repr k.n ++ ", " ++ Nat.repr k.e ++ ")"

/-- The `Transaction` dataclass.  `validation_failure_reason` is not a
dataclass field: Python creates that attribute only inside the failure
branch of `validate`, so `none` models the attribute being absent. -/
structure Transaction where
  sender_address : PublicKey
  recipient_address : PublicKey
  value : ℚ
  signature : List (Fin 256) := []
  validation_failure_reason : Option String := none
deriving DecidableEq, Repr

/-- The distinct exceptions the embedded control flow can raise. -/
inductive PyError where
  /-- `rsa.VerificationError` out of `rsa.verify`. -/
  | verificationFailed
  /-- The bare `Exception` raised by `submit_transaction` when the
  sender balance is below the transaction value. -/
  | insufficientTokens (required available : ℚ)
  /-- Reading an attribute that was never created. -/
  | attributeError
deriving DecidableEq, Repr

/-- The message of `rsa.VerificationError`, stored by the failure branch
of `Transaction.validate` as `str(e)`. -/
def verificationFailedMsg : String := "Verification failed"

/-- External primitives of the notebook, kept opaque (spec section 6
treats them as standard-library collaborators): the hex SHA-256 digest,
the rsa signature check, and Python `str` on floats and on lists of
transactions. -/
structure Prim where
  sha256hex : String → String
  rsaVerify : String → List (Fin 256) → PublicKey → Bool
  strFloat : ℚ → String
  strTxList : List Transaction → String

/-- Python `Transaction.get_core_data`: the string
`str(sender) + str(recipient) + str(value)`, everything but the
signature. -/
def Transaction.get_core_data (P : Prim) (t : Transaction) : String :=
  strPublicKey t.sender_address ++ strPublicKey t.recipient_address ++ P.strFloat t.value

/-- Python `Transaction.validate`: verifies the signature over the core
data.  On success the object is returned untouched and nothing is
raised; on failure the reason attribute is set and the exception
propagates (`raise` inside the `except` block). -/
def Transaction.validate (P : Prim) (t : Transaction) : Transaction × Option PyError :=
  if P.rsaVerify (t.get_core_data P) t.signature t.sender_address then (t, none)
  else ({ t with validation_failure_reason := some verificationFailedMsg },
        some PyError.verificationFailed)

/-- Python `Transaction.get_validation_failure_reason`: a plain read of
`self.validation_failure_reason`; when no failed `validate` has created
the attribute, the read itself raises `AttributeError`. -/
def Transaction.get_validation_failure_reason (t : Transaction) : Except PyError String :=
  match t.validation_failure_reason with
  | some s => Except.ok s
  | none => Except.error PyError.attributeError

/-- The `Block` dataclass. -/
structure Block where
  num : Nat
  timestamp : ℚ
  prev_block_hash : String
  transactions : List Transaction
  block_hash : String := ""
  nonce : Nat := 0
deriving DecidableEq, Repr

/-- Python `Block.get_header`: the concatenation
`str(num) + str(timestamp) + str(prev_block_hash) + str(nonce) + str(transactions)`,
in exactly that field order. -/
def Block.get_header (P : Prim) (b : Block) : String :=
  Nat.repr b.num ++ P.strFloat b.timestamp ++ b.prev_block_hash ++
    Nat.repr b.nonce ++ P.strTxList b.transactions

/-- Python `Block.hash`: the hex SHA-256 digest of the header, stored
into `block_hash` and returned. -/
def Block.hash (P : Prim) (b : Block) : String × Block :=
  let h := P.sha256hex (b.get_header P)
  (h, { b with block_hash := h })

/-- Python `Block.validate`: `proof_of_work_func(self.hash())`, with the
cache update `hash` performs. -/
def Block.validate (P : Prim) (pow : String → Bool) (b : Block) : Bool × Block :=
  let hb := b.hash P
  (pow hb.1, hb.2)

/-- The module-level reward constant `REWARD_AMOUNT = 2.0`. -/
def REWARD_AMOUNT : ℚ := 2

/-- The `BlockchainNode` state.  `proof_of_work_func` is the lambda the
constructor installs; it is a field because the source keeps it on the
object (it is never reassigned). -/
structure BlockchainNode where
  miner_address : PublicKey
  blocks : List Block
  pending_transactions : List Transaction
  proof_of_work_func : String → Bool

/-- The nonce search of `mine_block`
(`proof = 0; while not new_block.validate(f): proof += 1; new_block.nonce = proof`),
on explicit fuel.  The loop counter always equals the nonce it has just
written, so stepping `nonce + 1` is the same schedule `0, 1, 2, ...`. -/
def powSearch (P : Prim) (pow : String → Bool) : Nat → Block → Option Block
  | 0, _ => none
  | fuel + 1, b =>
    let vb := b.validate P pow
    if vb.1 then some vb.2 else powSearch P pow fuel { vb.2 with nonce := vb.2.nonce + 1 }

/-- The reward transaction `mine_block` enqueues:
`Transaction(sender_address=rsa.PublicKey(0, 0), recipient_address=miner, value=REWARD_AMOUNT)`,
with the dataclass defaults (empty signature, no failure attribute). -/
def rewardTransaction (miner : PublicKey) : Transaction :=
  { sender_address := ⟨0, 0⟩, recipient_address := miner, value := REWARD_AMOUNT }

/-- Python `BlockchainNode.mine_block`.  `ts` is the `time.time()`
reading for the new block and `fuel` bounds the proof-of-work loop
(unbounded in the source); `none` is a call that has not returned.
Reading the hash of the last block for linkage also rewrites that block
cache field, as `prev_block.hash()` does. -/
def BlockchainNode.mine_block (P : Prim) (node : BlockchainNode) (ts : ℚ) (fuel : Nat) :
    Option BlockchainNode :=
  let hnb : String × Nat × List Block :=
    match node.blocks.getLast? with
    | none => ("-", 0, node.blocks)
    | some prev =>
      let hp := prev.hash P
      (hp.1, prev.num + 1, node.blocks.dropLast ++ [hp.2])
  let candidate : Block :=
    { num := hnb.2.1, timestamp := ts, prev_block_hash := hnb.1,
      transactions := node.pending_transactions }
  match powSearch P node.proof_of_work_func fuel candidate with
  | none => none
  | some mined =>
    some { node with
      blocks := hnb.2.2 ++ [mined],
      pending_transactions := [rewardTransaction node.miner_address] }

/-- Python `BlockchainNode.__init__`: empty chain and pool, the
difficulty lambda `x.endswith('000')`, then one `mine_block` call to
create the genesis block. -/
def BlockchainNode.init (P : Prim) (miner : PublicKey) (ts : ℚ) (fuel : Nat) :
    Option BlockchainNode :=
  BlockchainNode.mine_block P
    { miner_address := miner, blocks := [], pending_transactions := [],
      proof_of_work_func := fun x => x.endsWith "000" } ts fuel

/-- Python `BlockchainNode.get_balance`: folds over every transaction of
every block in chain order, debiting senders and crediting
recipients. -/
def BlockchainNode.get_balance (node : BlockchainNode) (address : PublicKey) : ℚ :=
  node.blocks.foldl
    (fun balance b =>
      b.transactions.foldl
        (fun balance t =>
          let afterSend := if t.sender_address = address then balance - t.value else balance
          if t.recipient_address = address then afterSend + t.value else afterSend)
        balance)
    0

/-- The diagnostic detail the `except` block of `submit_transaction`
prints before re-raising: the caught exception and the four transaction
fields, plus the recorded validation failure reason when that attribute
exists and is truthy. -/
structure FailureReport where
  message : PyError
  sender : PublicKey
  recipient : PublicKey
  value : ℚ
  signature : List (Fin 256)
  validationReason : Option String
deriving DecidableEq, Repr

/-- Result of one `submit_transaction` call: either the success print,
or the printed failure report together with the exception that escapes
the call. -/
inductive SubmitOutcome where
  | success
  | failure (report : FailureReport) (raised : PyError)
deriving DecidableEq, Repr

/-- The `except` block of `submit_transaction`: prints the failure and
the transaction fields, then reads `get_validation_failure_reason()`
(which raises `AttributeError` when the attribute was never created,
pre-empting the final `raise`), prints the reason when truthy, and
re-raises the caught exception. -/
def submitExceptBlock (e : PyError) (t : Transaction) : SubmitOutcome :=
  match t.get_validation_failure_reason with
  | Except.error attrErr =>
    SubmitOutcome.failure
      { message := e, sender := t.sender_address, recipient := t.recipient_address,
        value := t.value, signature := t.signature, validationReason := none } attrErr
  | Except.ok s =>
    SubmitOutcome.failure
      { message := e, sender := t.sender_address, recipient := t.recipient_address,
        value := t.value, signature := t.signature,
        validationReason := if s.length = 0 then none else some s } e

/-- Python `BlockchainNode.submit_transaction`: validates the signature,
checks the derived sender balance against the value, and only then
appends to the pending pool; any failure goes through the `except`
block, which leaves the node untouched. -/
def BlockchainNode.submit_transaction (P : Prim) (node : BlockchainNode)
    (transaction : Transaction) : SubmitOutcome × BlockchainNode :=
  let vt := transaction.validate P
  match vt.2 with
  | some e => (submitExceptBlock e vt.1, node)
  | none =>
    let sender_balance := node.get_balance transaction.sender_address
    if sender_balance < transaction.value then
      (submitExceptBlock (PyError.insufficientTokens transaction.value sender_balance) vt.1,
       node)
    else
      (SubmitOutcome.success,
       { node with pending_transactions := node.pending_transactions ++ [vt.1] })

/-- The reason `validate_chain` prints at the first failing pair,
tagged with the `num` of the failing block as the source prints it. -/
inductive ChainFailure where
  | prevHashMismatch (num : Nat)
  | invalidProofOfWork (num : Nat)
deriving DecidableEq, Repr

/-- The loop of `validate_chain` from a given predecessor over the
remaining blocks: linkage first, proof-of-work second, stopping at the
first failure. -/
def validateFrom (P : Prim) (pow : String → Bool) : Block → List Block → Option ChainFailure
  | _, [] => none
  | prev, cur :: rest =>
    if cur.prev_block_hash ≠ (prev.hash P).1 then
      some (ChainFailure.prevHashMismatch cur.num)
    else if ¬ (cur.validate P pow).1 then
      some (ChainFailure.invalidProofOfWork cur.num)
    else validateFrom P pow cur rest

/-- The failure `validate_chain` reports, if any: the loop runs over
indices `1` to `len(blocks) - 1`, so index `0` is never checked against
a predecessor. -/
def BlockchainNode.validate_chain_failure (P : Prim) (node : BlockchainNode) :
    Option ChainFailure :=
  match node.blocks with
  | [] => none
  | b :: rest => validateFrom P node.proof_of_work_func b rest

/-- Python `BlockchainNode.validate_chain`: `True` exactly when the loop
finds no failure. -/
def BlockchainNode.validate_chain (P : Prim) (node : BlockchainNode) : Bool :=
  (node.validate_chain_failure P).isNone

/-- States of a node reachable from `__init__` through any sequence of
`submit_transaction` and `mine_block` calls that returned.  `ts` is the
wall clock read by a mining call and `fuel` its loop bound. -/
inductive Reachable (P : Prim) : BlockchainNode → Prop where
  | boot (miner : PublicKey) (ts : ℚ) (fuel : Nat) (node : BlockchainNode) :
      BlockchainNode.init P miner ts fuel = some node → Reachable P node
  | submit (node : BlockchainNode) (t : Transaction) :
      Reachable P node → Reachable P (node.submit_transaction P t).2
  | mine (node node' : BlockchainNode) (ts : ℚ) (fuel : Nat) :
      Reachable P node → node.mine_block P ts fuel = some node' → Reachable P node'

/-! Concrete instances used to exercise the theorems: a primitive pack
whose digest function is constantly `"000"` (so one proof-of-work probe
succeeds) and whose signature check always fails, and the node states a
construction and one further mining call produce under it. -/

/-- Demo primitives: constant digest, failing signature check. -/
def demoP : Prim :=
  { sha256hex := fun _ => "000", rsaVerify := fun _ _ _ => false,
    strFloat := fun _ => "", strTxList := fun _ => "" }

/-- Demo primitives whose signature check always succeeds. -/
def demoPok : Prim :=
  { sha256hex := fun _ => "000", rsaVerify := fun _ _ _ => true,
    strFloat := fun _ => "", strTxList := fun _ => "" }

/-- The demo miner address. -/
def demoMiner : PublicKey := ⟨1, 1⟩

/-- The reward transaction credited to the demo miner. -/
def demoReward : Transaction := rewardTransaction demoMiner

/-- The genesis block construction mines under `demoP`. -/
def demoBlock0 : Block :=
  { num := 0, timestamp := 0, prev_block_hash := "-", transactions := [],
    block_hash := "000", nonce := 0 }

/-- The second block a further `mine_block` call mines under `demoP`. -/
def demoBlock1 : Block :=
  { num := 1, timestamp := 0, prev_block_hash := "000", transactions := [demoReward],
    block_hash := "000", nonce := 0 }

/-- The node a fresh construction yields under `demoP`. -/
def demoNode : BlockchainNode :=
  { miner_address := demoMiner, blocks := [demoBlock0],
    pending_transactions := [demoReward],
    proof_of_work_func := fun x => x.endsWith "000" }

/-- The node one further `mine_block` call yields under `demoP`. -/
def demoNode2 : BlockchainNode :=
  { miner_address := demoMiner, blocks := [demoBlock0, demoBlock1],
    pending_transactions := [demoReward],
    proof_of_work_func := fun x => x.endsWith "000" }

/-- A tampered two-block chain: its second block stores a previous hash
that matches nothing. -/
def badBlock : Block :=
  { num := 1, timestamp := 0, prev_block_hash := "bad", transactions := [],
    block_hash := "", nonce := 0 }

/-- A node holding the tampered chain. -/
def badNode : BlockchainNode :=
  { miner_address := demoMiner, blocks := [demoBlock0, badBlock],
    pending_transactions := [], proof_of_work_func := fun x => x.endsWith "000" }

/-- The reason printed in the failure report, when the outcome is a
failure (the first line the `except` block prints). -/
def SubmitOutcome.reportedError : SubmitOutcome → Option PyError
  | SubmitOutcome.success => none
  | SubmitOutcome.failure r _ => some r.message

/-- A transaction whose signature the demo verifier rejects. -/
def badSigTx : Transaction :=
  { sender_address := demoMiner, recipient_address := ⟨2, 2⟩, value := 1, signature := [1] }

/-- The failure report `submit_transaction` prints for `badSigTx`. -/
def badSigReport : FailureReport :=
  { message := PyError.verificationFailed, sender := demoMiner, recipient := ⟨2, 2⟩,
    value := 1, signature := [1], validationReason := some verificationFailedMsg }

/-- A well-signed transaction over value `1` from the demo miner, whose
derived balance on the fresh demo chain is `0`. -/
def fundlessTx : Transaction :=
  { sender_address := demoMiner, recipient_address := ⟨2, 2⟩, value := 1 }

/-- The linkage relation between adjacent blocks: the later block stores
the recomputed digest of the earlier one. -/
def linkedPair (P : Prim) (a b : Block) : Prop :=
  b.prev_block_hash = P.sha256hex (a.get_header P)

/-- Both checks `validate_chain` runs on an adjacent pair: stored
previous hash against recomputed digest, and the difficulty predicate on
the later block. -/
def pairOK (P : Prim) (pow : String → Bool) (a b : Block) : Prop :=
  linkedPair P a b ∧ pow (P.sha256hex (b.get_header P)) = true

/-- Signed contribution of one transaction to the derived balance of
one address, as `get_balance` accumulates it. -/
def txContribution (address : PublicKey) (t : Transaction) : ℚ :=
  (if t.recipient_address = address then t.value else 0) -
  (if t.sender_address = address then t.value else 0)

/-- Every transaction of the chain, in the order `get_balance` scans
them. -/
def chainTransactions (node : BlockchainNode) : List Transaction :=
  node.blocks.flatMap (fun b => b.transactions)

/-- The two addresses occurring in the two-block demo chain: the system
address and the demo miner. -/
def demoAddressSet : Finset PublicKey := {⟨0, 0⟩, demoMiner}

/-- The genesis demo block with its nonce incremented. -/
def nonceBlock : Block := { demoBlock0 with nonce := 1 }

/-- Decimal value of a run of digit characters, used to read a
`Nat.repr` rendering back. -/
def digitsVal (l : List Char) : Nat :=
  l.foldl (fun a c => a * 10 + (c.toNat - 48)) 0

/-! ## Helper lemmas -/

/-- Rewriting the cached digest does not change the header. -/
theorem get_header_set_cache (P : Prim) (b : Block) (s : String) :
    Block.get_header P { b with block_hash := s } = Block.get_header P b := rfl

/-- The difficulty lambda accepts the constant demo digest. -/
theorem ends000 : "000".endsWith "000" = true := by
  simp only [String.endsWith, BEq.beq, Substring.beq, String.substrEq]
  repeat (unfold String.substrEq.loop; simp only [String.get])
  decide

/-- Construction under the demo primitives returns `demoNode`. -/
theorem demoNode_init : BlockchainNode.init demoP demoMiner 0 1 = some demoNode := by
  simp only [BlockchainNode.init, BlockchainNode.mine_block, powSearch, Block.validate,
    Block.hash, Block.get_header, demoP, List.getLast?, ends000, if_true]
  rfl

/-- Mining once more under the demo primitives returns `demoNode2`. -/
theorem demoNode_mine : demoNode.mine_block demoP 0 1 = some demoNode2 := by
  simp only [BlockchainNode.mine_block, powSearch, Block.validate,
    Block.hash, Block.get_header, demoP, demoNode, List.getLast?, ends000, if_true]
  rfl

/-- Elimination form for a successful proof-of-work search: the found
block passes the difficulty predicate on its recomputed digest, keeps
every header field of the candidate except the nonce, and carries its
own digest in the cache field. -/
theorem powSearch_spec (P : Prim) (pow : String → Bool) :
    ∀ (fuel : Nat) (b b' : Block), powSearch P pow fuel b = some b' →
      pow (P.sha256hex (b'.get_header P)) = true ∧
      b'.num = b.num ∧ b'.timestamp = b.timestamp ∧
      b'.prev_block_hash = b.prev_block_hash ∧ b'.transactions = b.transactions ∧
      b'.block_hash = P.sha256hex (b'.get_header P) := by
  intro fuel
  induction fuel with
  | zero => intro b b' h; exact absurd h (by simp [powSearch])
  | succ fuel ih =>
    intro b b' h
    simp only [powSearch] at h
    by_cases hpow : pow (P.sha256hex (b.get_header P)) = true
    · simp only [Block.validate, Block.hash, hpow, if_true, Option.some.injEq] at h
      subst h
      exact ⟨hpow, rfl, rfl, rfl, rfl, rfl⟩
    · simp only [Block.validate, Block.hash, hpow, if_false, Bool.false_eq_true] at h
      obtain ⟨h1, h2, h3, h4, h5, h6⟩ := ih _ b' h
      exact ⟨h1, h2, h3, h4, h5, h6⟩

/-- Unfolding of `mine_block` on an empty chain (the genesis branch). -/
theorem mine_block_nil (P : Prim) (node : BlockchainNode) (ts : ℚ) (fuel : Nat)
    (hb : node.blocks = []) :
    node.mine_block P ts fuel =
      (powSearch P node.proof_of_work_func fuel
        { num := 0, timestamp := ts, prev_block_hash := "-",
          transactions := node.pending_transactions }).map
        (fun mined =>
          { node with
            blocks := [mined],
            pending_transactions := [rewardTransaction node.miner_address] }) := by
  cases h : powSearch P node.proof_of_work_func fuel
      { num := 0, timestamp := ts, prev_block_hash := "-",
        transactions := node.pending_transactions } with
  | none => simp [BlockchainNode.mine_block, hb, h]
  | some mined => simp [BlockchainNode.mine_block, hb, h]

/-- Unfolding of `mine_block` on a non-empty chain: the new block links
to the recomputed digest of the last block, whose cache field that read
also rewrites. -/
theorem mine_block_concat (P : Prim) (node : BlockchainNode) (ts : ℚ) (fuel : Nat)
    (l : List Block) (prev : Block) (hb : node.blocks = l ++ [prev]) :
    node.mine_block P ts fuel =
      (powSearch P node.proof_of_work_func fuel
        { num := prev.num + 1, timestamp := ts,
          prev_block_hash := P.sha256hex (prev.get_header P),
          transactions := node.pending_transactions }).map
        (fun mined =>
          { node with
            blocks := (l ++ [{ prev with block_hash := P.sha256hex (prev.get_header P) }])
              ++ [mined],
            pending_transactions := [rewardTransaction node.miner_address] }) := by
  cases h : powSearch P node.proof_of_work_func fuel
      { num := prev.num + 1, timestamp := ts,
        prev_block_hash := P.sha256hex (prev.get_header P),
        transactions := node.pending_transactions } with
  | none =>
    simp [BlockchainNode.mine_block, hb, h, Block.hash, List.getLast?_concat,
      List.dropLast_concat]
  | some mined =>
    simp [BlockchainNode.mine_block, hb, h, Block.hash, List.getLast?_concat,
      List.dropLast_concat]

/-! ## Claim theorems -/

/-- C7: a freshly constructed `BlockchainNode` has a chain of length
exactly one, whose single block has sequence number `0`, the sentinel
previous hash `"-"`, and an empty transaction list. -/
theorem freshly_constructed_node (P : Prim) (miner : PublicKey) (ts : ℚ) (fuel : Nat)
    (node : BlockchainNode) (h : BlockchainNode.init P miner ts fuel = some node) :
    node.blocks.length = 1 ∧ ∃ g, node.blocks = [g] ∧ g.num = 0 ∧
      g.prev_block_hash = "-" ∧ g.transactions = [] := by
  rw [BlockchainNode.init, mine_block_nil P _ ts fuel rfl] at h
  cases hp : powSearch P (fun x => x.endsWith "000") fuel
      { num := 0, timestamp := ts, prev_block_hash := "-", transactions := [] } with
  | none => rw [hp] at h; exact absurd h (by simp)
  | some mined =>
    rw [hp] at h
    obtain ⟨_, hnum, _, hprev, htx, _⟩ := powSearch_spec P _ fuel _ mined hp
    simp only [Option.map_some', Option.some.injEq] at h
    subst h
    exact ⟨rfl, mined, rfl, hnum, hprev, htx⟩

/-- C7 witness: the theorem applied to the demo construction. -/
theorem freshly_constructed_node_witness :
    demoNode.blocks.length = 1 ∧ ∃ g, demoNode.blocks = [g] ∧ g.num = 0 ∧
      g.prev_block_hash = "-" ∧ g.transactions = [] :=
  freshly_constructed_node demoP demoMiner 0 1 demoNode demoNode_init

/-- C6: immediately after every `mine_block` call that returns, the
pending pool holds exactly one transaction: the unsigned reward from the
all-zero system key to the miner address over `REWARD_AMOUNT`, which is
`2`. -/
theorem reward_issuance (P : Prim) (node : BlockchainNode) (ts : ℚ) (fuel : Nat)
    (node' : BlockchainNode) (h : node.mine_block P ts fuel = some node') :
    node'.pending_transactions =
      [{ sender_address := ⟨0, 0⟩, recipient_address := node.miner_address,
         value := REWARD_AMOUNT, signature := [], validation_failure_reason := none }] ∧
    REWARD_AMOUNT = 2 := by
  rcases List.eq_nil_or_concat node.blocks with hb | ⟨l, prev, hb⟩ <;> [skip; rw [List.concat_eq_append] at hb]
  · rw [mine_block_nil P node ts fuel hb] at h
    cases hp : powSearch P node.proof_of_work_func fuel
        { num := 0, timestamp := ts, prev_block_hash := "-",
          transactions := node.pending_transactions } with
    | none => rw [hp] at h; exact absurd h (by simp)
    | some mined =>
      rw [hp] at h
      simp only [Option.map_some', Option.some.injEq] at h
      subst h
      exact ⟨rfl, rfl⟩
  · rw [mine_block_concat P node ts fuel l prev hb] at h
    cases hp : powSearch P node.proof_of_work_func fuel
        { num := prev.num + 1, timestamp := ts,
          prev_block_hash := P.sha256hex (prev.get_header P),
          transactions := node.pending_transactions } with
    | none => rw [hp] at h; exact absurd h (by simp)
    | some mined =>
      rw [hp] at h
      simp only [Option.map_some', Option.some.injEq] at h
      subst h
      exact ⟨rfl, rfl⟩

/-- C6 witness: the theorem applied to the demo mining call. -/
theorem reward_issuance_witness :
    demoNode2.pending_transactions =
      [{ sender_address := ⟨0, 0⟩, recipient_address := demoNode.miner_address,
         value := REWARD_AMOUNT, signature := [], validation_failure_reason := none }] ∧
    REWARD_AMOUNT = 2 :=
  reward_issuance demoP demoNode 0 1 demoNode2 demoNode_mine

/-- `submit_transaction` never touches the chain. -/
theorem submit_blocks_eq (P : Prim) (node : BlockchainNode) (t : Transaction) :
    (node.submit_transaction P t).2.blocks = node.blocks := by
  simp only [BlockchainNode.submit_transaction]
  split
  · rfl
  · split <;> rfl

/-- `submit_transaction` never touches the difficulty predicate. -/
theorem submit_pow_eq (P : Prim) (node : BlockchainNode) (t : Transaction) :
    (node.submit_transaction P t).2.proof_of_work_func = node.proof_of_work_func := by
  simp only [BlockchainNode.submit_transaction]
  split
  · rfl
  · split <;> rfl

/-- One returning `mine_block` call keeps the chain linked and every
block difficulty-valid, extends it by one block, and leaves the
difficulty predicate alone. -/
theorem mine_block_invariant (P : Prim) (node node' : BlockchainNode) (ts : ℚ) (fuel : Nat)
    (h : node.mine_block P ts fuel = some node')
    (hchain : List.Chain' (linkedPair P) node.blocks)
    (hpow : ∀ b ∈ node.blocks, node.proof_of_work_func (P.sha256hex (b.get_header P)) = true) :
    node'.blocks ≠ [] ∧ List.Chain' (linkedPair P) node'.blocks ∧
      node'.proof_of_work_func = node.proof_of_work_func ∧
      ∀ b ∈ node'.blocks, node.proof_of_work_func (P.sha256hex (b.get_header P)) = true := by
  rcases List.eq_nil_or_concat node.blocks with hb | ⟨l, prev, hb⟩
  · rw [mine_block_nil P node ts fuel hb] at h
    cases hp : powSearch P node.proof_of_work_func fuel
        { num := 0, timestamp := ts, prev_block_hash := "-",
          transactions := node.pending_transactions } with
    | none => rw [hp] at h; exact absurd h (by simp)
    | some mined =>
      rw [hp] at h
      simp only [Option.map_some', Option.some.injEq] at h
      obtain ⟨hpw, -, -, -, -, -⟩ := powSearch_spec P _ fuel _ mined hp
      subst h
      refine ⟨by simp, List.chain'_singleton mined, rfl, ?_⟩
      intro b hbmem
      simp only [List.mem_singleton] at hbmem
      subst hbmem
      exact hpw
  · rw [List.concat_eq_append] at hb
    rw [mine_block_concat P node ts fuel l prev hb] at h
    cases hp : powSearch P node.proof_of_work_func fuel
        { num := prev.num + 1, timestamp := ts,
          prev_block_hash := P.sha256hex (prev.get_header P),
          transactions := node.pending_transactions } with
    | none => rw [hp] at h; exact absurd h (by simp)
    | some mined =>
      rw [hp] at h
      simp only [Option.map_some', Option.some.injEq] at h
      obtain ⟨hpw, -, -, hprevh, -, -⟩ := powSearch_spec P _ fuel _ mined hp
      subst h
      rw [hb] at hchain hpow
      obtain ⟨hcl, -, hlast⟩ := List.chain'_append.mp hchain
      refine ⟨by simp, ?_, rfl, ?_⟩
      · refine List.chain'_append.mpr ⟨?_, List.chain'_singleton _, ?_⟩
        · refine List.chain'_append.mpr ⟨hcl, List.chain'_singleton _, ?_⟩
          intro x hx y hy
          simp only [List.head?_cons, Option.mem_def, Option.some.injEq] at hy
          subst hy
          exact hlast x hx prev (by simp)
        · intro x hx y hy
          simp only [List.getLast?_concat, Option.mem_def, Option.some.injEq] at hx
          simp only [List.head?_cons, Option.mem_def, Option.some.injEq] at hy
          subst hx
          subst hy
          exact hprevh
      · intro b hbmem
        rcases List.mem_append.mp hbmem with hbmem | hbmem
        · rcases List.mem_append.mp hbmem with hbmem | hbmem
          · exact hpow b (List.mem_append_left _ hbmem)
          · simp only [List.mem_singleton] at hbmem
            subst hbmem
            exact hpow prev (List.mem_append_right _ (by simp))
        · simp only [List.mem_singleton] at hbmem
          subst hbmem
          exact hpw

/-- The maintained invariant of every reachable node: a non-empty
correctly linked chain whose blocks all satisfy the installed difficulty
predicate on their recomputed digests. -/
theorem reachable_invariant (P : Prim) (node : BlockchainNode) (h : Reachable P node) :
    node.blocks ≠ [] ∧ List.Chain' (linkedPair P) node.blocks ∧
      ∀ b ∈ node.blocks, node.proof_of_work_func (P.sha256hex (b.get_header P)) = true := by
  induction h with
  | boot miner ts fuel node h =>
    obtain ⟨h1, h2, h3, h4⟩ := mine_block_invariant P _ node ts fuel h (by simp) (by simp)
    exact ⟨h1, h2, by rw [h3]; exact h4⟩
  | submit node t _ ih =>
    obtain ⟨h1, h2, h3⟩ := ih
    rw [submit_blocks_eq, submit_pow_eq]
    exact ⟨h1, h2, h3⟩
  | mine node node' ts fuel _ hmine ih =>
    obtain ⟨h1, h2, h3⟩ := ih
    obtain ⟨g1, g2, g3, g4⟩ := mine_block_invariant P node node' ts fuel hmine h2 h3
    exact ⟨g1, g2, by rw [g3]; exact g4⟩

/-- The state after the demo construction and one demo mining call is
reachable. -/
theorem demoNode2_reachable : Reachable demoP demoNode2 :=
  Reachable.mine demoNode demoNode2 0 1
    (Reachable.boot demoMiner 0 1 demoNode demoNode_init) demoNode_mine

/-- C1: every node state reachable by construction followed by any
sequence of `submit_transaction` and `mine_block` calls has a non-empty
chain in which every block after the first stores exactly the recomputed
digest of its predecessor. -/
theorem chain_linkage (P : Prim) (node : BlockchainNode) (h : Reachable P node) :
    node.blocks ≠ [] ∧
    ∀ i (hi : i + 1 < node.blocks.length),
      (node.blocks.get ⟨i + 1, hi⟩).prev_block_hash =
        P.sha256hex ((node.blocks.get ⟨i, Nat.lt_of_succ_lt hi⟩).get_header P) := by
  obtain ⟨hne, hchain, -⟩ := reachable_invariant P node h
  refine ⟨hne, fun i hi => ?_⟩
  exact List.chain'_iff_get.mp hchain i (by omega)

/-- C1 witness: the linkage of the two-block demo chain. -/
theorem chain_linkage_witness :
    demoNode2.blocks ≠ [] ∧
    (demoNode2.blocks.get ⟨1, by decide⟩).prev_block_hash =
      demoP.sha256hex ((demoNode2.blocks.get ⟨0, by decide⟩).get_header demoP) :=
  ⟨(chain_linkage demoP demoNode2 demoNode2_reachable).1,
   (chain_linkage demoP demoNode2 demoNode2_reachable).2 0 (by decide)⟩

/-- C2: every block of a reachable chain satisfies the node difficulty
predicate on its recomputed digest `b.hash()`. -/
theorem pow_enforcement (P : Prim) (node : BlockchainNode) (h : Reachable P node) :
    ∀ b ∈ node.blocks, node.proof_of_work_func ((b.hash P).1) = true :=
  (reachable_invariant P node h).2.2

/-- C2 witness: the difficulty predicate accepts the recomputed digest
of the second demo block. -/
theorem pow_enforcement_witness :
    demoNode2.proof_of_work_func ((demoBlock1.hash demoP).1) = true :=
  pow_enforcement demoP demoNode2 demoNode2_reachable demoBlock1 (by decide)

/-- The loop of `validate_chain` reports nothing exactly when every
adjacent pair passes both checks. -/
theorem validateFrom_eq_none (P : Prim) (pow : String → Bool) :
    ∀ (l : List Block) (prev : Block),
      validateFrom P pow prev l = none ↔ List.Chain' (pairOK P pow) (prev :: l) := by
  intro l
  induction l with
  | nil => intro prev; simp [validateFrom]
  | cons cur rest ih =>
    intro prev
    simp only [validateFrom]
    by_cases h1 : cur.prev_block_hash = (prev.hash P).1
    · rw [if_neg (not_not_intro h1)]
      by_cases h2 : (cur.validate P pow).1 = true
      · rw [if_neg (not_not_intro h2), ih cur]
        constructor
        · intro hc
          exact List.chain'_cons.mpr ⟨⟨h1, h2⟩, hc⟩
        · intro hc
          exact (List.chain'_cons.mp hc).2
      · rw [if_pos h2]
        refine iff_of_false (by simp) ?_
        intro hc
        exact h2 (List.chain'_cons.mp hc).1.2
    · rw [if_pos h1]
      refine iff_of_false (by simp) ?_
      intro hc
      exact h1 (List.chain'_cons.mp hc).1.1

/-- When the loop of `validate_chain` reports a failure, it is at the
first failing pair: every earlier pair passes both checks, the reported
number is the `num` of the failing block, and the reported kind tells a
linkage mismatch (checked first) from a difficulty failure (checked only
when the linkage holds). -/
theorem validateFrom_eq_some (P : Prim) (pow : String → Bool) :
    ∀ (l : List Block) (prev : Block) (f : ChainFailure),
      validateFrom P pow prev l = some f →
      ∃ k, ∃ hk : k < l.length,
        List.Chain' (pairOK P pow) (prev :: l.take k) ∧
        ((f = ChainFailure.prevHashMismatch (l.get ⟨k, hk⟩).num ∧
          ¬ linkedPair P ((prev :: l).get ⟨k, Nat.lt_succ_of_lt hk⟩) (l.get ⟨k, hk⟩)) ∨
         (f = ChainFailure.invalidProofOfWork (l.get ⟨k, hk⟩).num ∧
          linkedPair P ((prev :: l).get ⟨k, Nat.lt_succ_of_lt hk⟩) (l.get ⟨k, hk⟩) ∧
          ¬ pow (P.sha256hex ((l.get ⟨k, hk⟩).get_header P)) = true)) := by
  intro l
  induction l with
  | nil => intro prev f h; exact absurd h (by simp [validateFrom])
  | cons cur rest ih =>
    intro prev f h
    simp only [validateFrom] at h
    by_cases h1 : cur.prev_block_hash = (prev.hash P).1
    · rw [if_neg (not_not_intro h1)] at h
      by_cases h2 : (cur.validate P pow).1 = true
      · rw [if_neg (not_not_intro h2)] at h
        obtain ⟨k, hk, hchain, hcase⟩ := ih cur f h
        refine ⟨k + 1, Nat.succ_lt_succ hk, ?_, ?_⟩
        · exact List.chain'_cons.mpr ⟨⟨h1, h2⟩, hchain⟩
        · exact hcase
      · rw [if_pos h2] at h
        simp only [Option.some.injEq] at h
        subst h
        exact ⟨0, Nat.succ_pos _, List.chain'_singleton prev, Or.inr ⟨rfl, h1, h2⟩⟩
    · rw [if_pos h1] at h
      simp only [Option.some.injEq] at h
      subst h
      exact ⟨0, Nat.succ_pos _, List.chain'_singleton prev, Or.inl ⟨rfl, h1⟩⟩

/-- List-level form of the first-failure property of the
`validate_chain` loop, stated on the chain it scans. -/
theorem chainFirstFailure (P : Prim) (pow : String → Bool) (c : List Block) (f : ChainFailure)
    (h : (match c with
          | [] => none
          | b :: rest => validateFrom P pow b rest) = some f) :
    ∃ k, ∃ hk : k + 1 < c.length,
      List.Chain' (pairOK P pow) (c.take (k + 1)) ∧
      ((f = ChainFailure.prevHashMismatch (c.get ⟨k + 1, hk⟩).num ∧
        ¬ linkedPair P (c.get ⟨k, Nat.lt_of_succ_lt hk⟩) (c.get ⟨k + 1, hk⟩)) ∨
       (f = ChainFailure.invalidProofOfWork (c.get ⟨k + 1, hk⟩).num ∧
        linkedPair P (c.get ⟨k, Nat.lt_of_succ_lt hk⟩) (c.get ⟨k + 1, hk⟩) ∧
        ¬ pow (P.sha256hex ((c.get ⟨k + 1, hk⟩).get_header P)) = true)) := by
  cases c with
  | nil => exact absurd h (by simp)
  | cons b rest =>
    obtain ⟨k, hk, hchain, hcase⟩ := validateFrom_eq_some P pow rest b f h
    refine ⟨k, Nat.succ_lt_succ hk, ?_, ?_⟩
    · exact hchain
    · exact hcase

/-- C3: `validate_chain` returns `True` exactly when, for every index
`i > 0`, block `i` stores the recomputed digest of block `i - 1` and the
recomputed digest of block `i` satisfies the difficulty predicate; a
chain of length at most one (the genesis alone) always validates, the
genesis block never being checked against a predecessor; and whenever
the loop reports a failure the call returns `False` with the first
failing pair and a reason telling a linkage mismatch from a
proof-of-work failure.  The embedded function is total, mirroring that
the source returns a boolean and never raises. -/
theorem validate_chain_spec (P : Prim) (node : BlockchainNode) :
    (node.validate_chain P = true ↔
      ∀ i, ∀ hi : i + 1 < node.blocks.length,
        (node.blocks.get ⟨i + 1, hi⟩).prev_block_hash =
            P.sha256hex ((node.blocks.get ⟨i, Nat.lt_of_succ_lt hi⟩).get_header P) ∧
          node.proof_of_work_func
            (P.sha256hex ((node.blocks.get ⟨i + 1, hi⟩).get_header P)) = true) ∧
    (node.blocks.length ≤ 1 → node.validate_chain P = true) ∧
    (∀ f, node.validate_chain_failure P = some f →
      node.validate_chain P = false ∧
      ∃ k, ∃ hk : k + 1 < node.blocks.length,
        List.Chain' (pairOK P node.proof_of_work_func) (node.blocks.take (k + 1)) ∧
        ((f = ChainFailure.prevHashMismatch (node.blocks.get ⟨k + 1, hk⟩).num ∧
          ¬ linkedPair P (node.blocks.get ⟨k, Nat.lt_of_succ_lt hk⟩)
            (node.blocks.get ⟨k + 1, hk⟩)) ∨
         (f = ChainFailure.invalidProofOfWork (node.blocks.get ⟨k + 1, hk⟩).num ∧
          linkedPair P (node.blocks.get ⟨k, Nat.lt_of_succ_lt hk⟩)
            (node.blocks.get ⟨k + 1, hk⟩) ∧
          ¬ node.proof_of_work_func
            (P.sha256hex ((node.blocks.get ⟨k + 1, hk⟩).get_header P)) = true))) := by
  refine ⟨?_, ?_, ?_⟩
  · cases hb : node.blocks with
    | nil =>
      simp only [BlockchainNode.validate_chain, BlockchainNode.validate_chain_failure, hb]
      refine iff_of_true rfl ?_
      intro i hi
      simp at hi
    | cons b rest =>
      simp only [BlockchainNode.validate_chain, BlockchainNode.validate_chain_failure, hb]
      rw [Option.isNone_iff_eq_none, validateFrom_eq_none P node.proof_of_work_func rest b]
      rw [List.chain'_iff_get]
      constructor
      · intro hc i hi
        have := hc i (by simpa using Nat.lt_of_succ_lt_succ (by simpa using hi))
        exact ⟨this.1, this.2⟩
      · intro hc i hi
        have hi2 : i + 1 < (b :: rest).length := by simpa using Nat.succ_lt_succ (by simpa using hi)
        exact hc i hi2
  · intro hlen
    cases hb : node.blocks with
    | nil => simp [BlockchainNode.validate_chain, BlockchainNode.validate_chain_failure, hb]
    | cons b rest =>
      rw [hb] at hlen
      have hrest : rest = [] := by
        have : rest.length = 0 := by rw [List.length_cons] at hlen; omega
        exact List.length_eq_zero.mp this
      subst hrest
      simp [BlockchainNode.validate_chain, BlockchainNode.validate_chain_failure, hb,
        validateFrom]
  · intro f hf
    refine ⟨by simp [BlockchainNode.validate_chain, hf], ?_⟩
    exact chainFirstFailure P node.proof_of_work_func node.blocks f hf

/-- C3 witness: the two-block demo chain validates, its single adjacent
pair passes both checks, and the tampered chain fails. -/
theorem validate_chain_spec_witness :
    demoNode2.validate_chain demoP = true ∧
    ((demoNode2.blocks.get ⟨1, by decide⟩).prev_block_hash =
        demoP.sha256hex ((demoNode2.blocks.get ⟨0, by decide⟩).get_header demoP) ∧
      demoNode2.proof_of_work_func
        (demoP.sha256hex ((demoNode2.blocks.get ⟨1, by decide⟩).get_header demoP)) = true) ∧
    badNode.validate_chain demoP = false :=
  have hv : demoNode2.validate_chain demoP = true := by
    simp [BlockchainNode.validate_chain, BlockchainNode.validate_chain_failure, demoNode2,
      validateFrom, Block.hash, Block.validate, Block.get_header, demoP, demoBlock0,
      demoBlock1, ends000]
  have hne : ("bad" : String) ≠ "000" := by decide
  have hbad : badNode.validate_chain_failure demoP =
      some (ChainFailure.prevHashMismatch 1) := by
    simp [BlockchainNode.validate_chain_failure, badNode, validateFrom, Block.hash,
      demoP, demoBlock0, badBlock, hne]
  ⟨hv, (validate_chain_spec demoP demoNode2).1.mp hv 0 (by decide),
   ((validate_chain_spec demoP badNode).2.2 (ChainFailure.prevHashMismatch 1) hbad).1⟩

/-- The `except` block always produces a failure outcome whose report
carries the four fields of the caught transaction, with some exception
escaping. -/
theorem submitExceptBlock_failure (e : PyError) (t : Transaction) :
    ∃ r raised, submitExceptBlock e t = SubmitOutcome.failure r raised ∧
      r.message = e ∧ r.sender = t.sender_address ∧ r.recipient = t.recipient_address ∧
      r.value = t.value ∧ r.signature = t.signature ∧
      (raised = e ∨ raised = PyError.attributeError) := by
  cases hv : t.validation_failure_reason with
  | none =>
    refine ⟨{ message := e, sender := t.sender_address, recipient := t.recipient_address,
              value := t.value, signature := t.signature, validationReason := none },
            PyError.attributeError, ?_, rfl, rfl, rfl, rfl, rfl, Or.inr rfl⟩
    simp [submitExceptBlock, Transaction.get_validation_failure_reason, hv]
  | some s =>
    refine ⟨{ message := e, sender := t.sender_address, recipient := t.recipient_address,
              value := t.value, signature := t.signature,
              validationReason := if s.length = 0 then none else some s },
            e, ?_, rfl, rfl, rfl, rfl, rfl, Or.inl rfl⟩
    simp [submitExceptBlock, Transaction.get_validation_failure_reason, hv]

/-- Path-by-path unfolding of `submit_transaction`: the signature
failure path, the insufficient-funds path, and the success path. -/
theorem submit_transaction_paths (P : Prim) (node : BlockchainNode) (t : Transaction) :
    (∀ e, (t.validate P).2 = some e →
      node.submit_transaction P t = (submitExceptBlock e (t.validate P).1, node)) ∧
    ((t.validate P).2 = none →
      (node.get_balance t.sender_address < t.value →
        node.submit_transaction P t =
          (submitExceptBlock
            (PyError.insufficientTokens t.value (node.get_balance t.sender_address))
            (t.validate P).1, node)) ∧
      (¬ node.get_balance t.sender_address < t.value →
        node.submit_transaction P t =
          (SubmitOutcome.success,
           { node with pending_transactions :=
               node.pending_transactions ++ [(t.validate P).1] }))) := by
  refine ⟨?_, ?_⟩
  · intro e he
    simp only [BlockchainNode.submit_transaction]
    rw [he]
  · intro he
    refine ⟨?_, ?_⟩
    · intro hlt
      simp only [BlockchainNode.submit_transaction]
      rw [he]
      simp only [if_pos hlt]
    · intro hge
      simp only [BlockchainNode.submit_transaction]
      rw [he]
      simp only [if_neg hge]

/-- C4 (amended): on either failure kind `submit_transaction` reports a
structured failure whose detail carries the four fields of the failing
transaction and leaves the node (in particular the pending pool)
untouched, but the failure does escape the call: a signature failure
re-raises `VerificationError`, and on the insufficient-funds path
either the diagnostic read of the never-created
`validation_failure_reason` attribute raises `AttributeError`, or (when
a stale attribute exists) the insufficient-funds exception is
re-raised. -/
theorem submit_failure_behaviour (P : Prim) (node : BlockchainNode) (t : Transaction)
    (r : FailureReport) (e : PyError)
    (h : (node.submit_transaction P t).1 = SubmitOutcome.failure r e) :
    (node.submit_transaction P t).2 = node ∧
    r.sender = t.sender_address ∧ r.recipient = t.recipient_address ∧
    r.value = t.value ∧ r.signature = t.signature ∧
    (e = PyError.verificationFailed ∨ e = PyError.attributeError ∨
      e = PyError.insufficientTokens t.value (node.get_balance t.sender_address)) := by
  obtain ⟨hsig, hfunds⟩ := submit_transaction_paths P node t
  cases hv : (t.validate P).2 with
  | some e0 =>
    have he0 : e0 = PyError.verificationFailed := by
      revert hv
      simp only [Transaction.validate]
      split
      · simp
      · simp only [Prod.snd, Option.some.injEq]
        intro hv
        exact hv.symm
    obtain ⟨r', raised', heq, hm, hs, hr, hval, hsg, hraised⟩ :=
      submitExceptBlock_failure e0 ((t.validate P).1)
    have hcall := hsig e0 hv
    rw [hcall] at h ⊢
    simp only [heq, SubmitOutcome.failure.injEq] at h
    obtain ⟨h1, h2⟩ := h
    subst h1
    subst h2
    have hfields : ((t.validate P).1).sender_address = t.sender_address ∧
        ((t.validate P).1).recipient_address = t.recipient_address ∧
        ((t.validate P).1).value = t.value ∧
        ((t.validate P).1).signature = t.signature := by
      simp only [Transaction.validate]
      split <;> exact ⟨rfl, rfl, rfl, rfl⟩
    refine ⟨rfl, ?_, ?_, ?_, ?_, ?_⟩
    · rw [hs, hfields.1]
    · rw [hr, hfields.2.1]
    · rw [hval, hfields.2.2.1]
    · rw [hsg, hfields.2.2.2]
    · subst he0
      rcases hraised with h | h
      · exact Or.inl h
      · exact Or.inr (Or.inl h)
  | none =>
    have hval1 : (t.validate P).1 = t := by
      revert hv
      simp only [Transaction.validate]
      split
      · intro _; rfl
      · simp
    by_cases hlt : node.get_balance t.sender_address < t.value
    · have hcall := (hfunds hv).1 hlt
      obtain ⟨r', raised', heq, hm, hs, hr, hvalue, hsg, hraised⟩ :=
        submitExceptBlock_failure
          (PyError.insufficientTokens t.value (node.get_balance t.sender_address))
          ((t.validate P).1)
      rw [hcall] at h ⊢
      simp only [heq, SubmitOutcome.failure.injEq] at h
      obtain ⟨h1, h2⟩ := h
      subst h1
      subst h2
      rw [hval1] at hs hr hvalue hsg
      refine ⟨rfl, hs, hr, hvalue, hsg, ?_⟩
      rcases hraised with hh | hh
      · exact Or.inr (Or.inr hh)
      · exact Or.inr (Or.inl hh)
    · have hcall := (hfunds hv).2 hlt
      rw [hcall] at h
      exact absurd h (by simp)

/-- C4 counterexample: a concrete rejected submission on which the
failure escapes the call.  The claim says the failure is not propagated,
but the `except` block of the source ends in `raise`: here the
`VerificationError` of the failed signature check leaves
`submit_transaction` again (the second argument of
`SubmitOutcome.failure` is the exception escaping the call). -/
theorem submit_propagates_counterexample :
    (demoNode.submit_transaction demoP badSigTx).1 =
      SubmitOutcome.failure badSigReport PyError.verificationFailed := by
  rfl

/-- C4 witness: the amended theorem applied to the concrete rejected
submission. -/
theorem submit_failure_behaviour_witness :
    (demoNode.submit_transaction demoP badSigTx).2 = demoNode ∧
    badSigReport.sender = badSigTx.sender_address ∧
    badSigReport.recipient = badSigTx.recipient_address ∧
    badSigReport.value = badSigTx.value ∧
    badSigReport.signature = badSigTx.signature ∧
    (PyError.verificationFailed = PyError.verificationFailed ∨
      PyError.verificationFailed = PyError.attributeError ∨
      PyError.verificationFailed =
        PyError.insufficientTokens badSigTx.value
          (demoNode.get_balance badSigTx.sender_address)) :=
  submit_failure_behaviour demoP demoNode badSigTx badSigReport
    PyError.verificationFailed (by rfl)

/-- C5: a transaction whose signature verifies but whose value exceeds
the derived sender balance at submission time is rejected with the
insufficient-funds reason and the node (in particular the pending pool)
is left exactly as it was; and, in every case, the pool is appended to
(by exactly the submitted transaction) precisely when both the signature
check and the balance check succeed. -/
theorem insufficient_funds_rejection (P : Prim) (node : BlockchainNode) (t : Transaction) :
    (P.rsaVerify (t.get_core_data P) t.signature t.sender_address = true →
      node.get_balance t.sender_address < t.value →
      (node.submit_transaction P t).2 = node ∧
      (node.submit_transaction P t).1.reportedError =
        some (PyError.insufficientTokens t.value (node.get_balance t.sender_address))) ∧
    (node.submit_transaction P t).2.pending_transactions =
      (if P.rsaVerify (t.get_core_data P) t.signature t.sender_address = true
          ∧ ¬ node.get_balance t.sender_address < t.value
       then node.pending_transactions ++ [t]
       else node.pending_transactions) := by
  obtain ⟨hsig, hfunds⟩ := submit_transaction_paths P node t
  by_cases hver : P.rsaVerify (t.get_core_data P) t.signature t.sender_address = true
  · have hv2 : (t.validate P).2 = none := by simp [Transaction.validate, hver]
    have hv1 : (t.validate P).1 = t := by simp [Transaction.validate, hver]
    by_cases hlt : node.get_balance t.sender_address < t.value
    · have hcall := (hfunds hv2).1 hlt
      obtain ⟨r, raised, heq, hm, -, -, -, -, -⟩ :=
        submitExceptBlock_failure
          (PyError.insufficientTokens t.value (node.get_balance t.sender_address))
          ((t.validate P).1)
      refine ⟨fun _ _ => ?_, ?_⟩
      · rw [hcall]
        refine ⟨rfl, ?_⟩
        simp only [heq, SubmitOutcome.reportedError, hm]
      · rw [hcall]
        simp [hver, hlt]
    · have hcall := (hfunds hv2).2 hlt
      refine ⟨fun _ hlt' => absurd hlt' hlt, ?_⟩
      rw [hcall]
      simp [hver, hlt, hv1]
  · have hv2 : (t.validate P).2 = some PyError.verificationFailed := by
      simp [Transaction.validate, hver]
    have hcall := hsig _ hv2
    refine ⟨fun hver' _ => absurd hver' hver, ?_⟩
    rw [hcall]
    simp [hver]

/-- C5 witness: the theorem applied to the fundless demo submission
(sender balance `0`, value `1`). -/
theorem insufficient_funds_rejection_witness :
    ((demoNode.submit_transaction demoPok fundlessTx).2 = demoNode ∧
      (demoNode.submit_transaction demoPok fundlessTx).1.reportedError =
        some (PyError.insufficientTokens fundlessTx.value
          (demoNode.get_balance fundlessTx.sender_address))) ∧
    (demoNode.submit_transaction demoPok fundlessTx).2.pending_transactions =
      (if demoPok.rsaVerify (fundlessTx.get_core_data demoPok) fundlessTx.signature
            fundlessTx.sender_address = true
          ∧ ¬ demoNode.get_balance fundlessTx.sender_address < fundlessTx.value
       then demoNode.pending_transactions ++ [fundlessTx]
       else demoNode.pending_transactions) :=
  ⟨(insufficient_funds_rejection demoPok demoNode fundlessTx).1 rfl (by decide),
   (insufficient_funds_rejection demoPok demoNode fundlessTx).2⟩

/-- One step of the inner fold of `get_balance` adds the signed
contribution of the transaction. -/
theorem balance_step (address : PublicKey) (bal : ℚ) (t : Transaction) :
    (let afterSend := if t.sender_address = address then bal - t.value else bal
     if t.recipient_address = address then afterSend + t.value else afterSend) =
      bal + txContribution address t := by
  simp only [txContribution]
  by_cases h1 : t.sender_address = address
  all_goals by_cases h2 : t.recipient_address = address
  all_goals simp [h1, h2]
  all_goals try ring

/-- The inner fold of `get_balance` over one transaction list. -/
theorem balance_foldl_txs (address : PublicKey) (l : List Transaction) : ∀ bal : ℚ,
    l.foldl
      (fun bal t =>
        let afterSend := if t.sender_address = address then bal - t.value else bal
        if t.recipient_address = address then afterSend + t.value else afterSend)
      bal = bal + (l.map (txContribution address)).sum := by
  induction l with
  | nil => intro bal; simp
  | cons t l ih =>
    intro bal
    simp only [List.foldl_cons, List.map_cons, List.sum_cons]
    rw [balance_step address bal t, ih]
    ring

/-- `get_balance` is the sum of the signed contributions of every
transaction in the chain. -/
theorem get_balance_eq_sum (node : BlockchainNode) (address : PublicKey) :
    node.get_balance address =
      ((chainTransactions node).map (txContribution address)).sum := by
  suffices h : ∀ (bs : List Block) (bal : ℚ),
      bs.foldl
        (fun balance b =>
          b.transactions.foldl
            (fun balance t =>
              let afterSend := if t.sender_address = address then balance - t.value
                else balance
              if t.recipient_address = address then afterSend + t.value else afterSend)
            balance)
        bal = bal + ((bs.flatMap (fun b => b.transactions)).map (txContribution address)).sum by
    have := h node.blocks 0
    simpa [BlockchainNode.get_balance, chainTransactions] using this
  intro bs
  induction bs with
  | nil => intro bal; simp
  | cons b bs ih =>
    intro bal
    simp only [List.foldl_cons, List.flatMap_cons, List.map_append, List.sum_append]
    rw [balance_foldl_txs address b.transactions bal, ih]
    ring

/-- Summed over a set containing both its addresses, one transaction
contributes nothing. -/
theorem sum_txContribution (S : Finset PublicKey) (t : Transaction)
    (hs : t.sender_address ∈ S) (hr : t.recipient_address ∈ S) :
    ∑ a in S, txContribution a t = 0 := by
  simp only [txContribution]
  rw [Finset.sum_sub_distrib, Finset.sum_ite_eq, Finset.sum_ite_eq]
  simp [hs, hr]

/-- Summing the per-address contribution sums over a set covering every
address of the list gives zero. -/
theorem sum_balance_list (S : Finset PublicKey) :
    ∀ l : List Transaction,
      (∀ t ∈ l, t.sender_address ∈ S ∧ t.recipient_address ∈ S) →
      ∑ a in S, (l.map (txContribution a)).sum = 0 := by
  intro l
  induction l with
  | nil => intro _; simp
  | cons t l ih =>
    intro h
    simp only [List.map_cons, List.sum_cons]
    rw [Finset.sum_add_distrib,
      sum_txContribution S t (h t (by simp)).1 (h t (by simp)).2,
      ih (fun u hu => (h u (by simp [hu])))]
    simp

/-- C8: over any finite set of addresses containing every sender and
every recipient occurring in the chain (in particular the set of all
addresses appearing in it, the system address included), the derived
balances `get_balance` computes sum to zero: each transaction debits its
sender by exactly what it credits its recipient. -/
theorem balance_conservation (node : BlockchainNode) (S : Finset PublicKey)
    (hS : ∀ b ∈ node.blocks, ∀ t ∈ b.transactions,
      t.sender_address ∈ S ∧ t.recipient_address ∈ S) :
    ∑ a in S, node.get_balance a = 0 := by
  have hall : ∀ t ∈ chainTransactions node,
      t.sender_address ∈ S ∧ t.recipient_address ∈ S := by
    intro t ht
    simp only [chainTransactions, List.mem_flatMap] at ht
    obtain ⟨b, hb, ht⟩ := ht
    exact hS b hb t ht
  calc ∑ a in S, node.get_balance a
      = ∑ a in S, ((chainTransactions node).map (txContribution a)).sum :=
        Finset.sum_congr rfl (fun a _ => get_balance_eq_sum node a)
    _ = 0 := sum_balance_list S (chainTransactions node) hall

/-- C8 witness: the demo chain after one rewarded mining call balances
to zero over its two addresses (system at `-2`, miner at `+2`). -/
theorem balance_conservation_witness :
    ∑ a in demoAddressSet, demoNode2.get_balance a = 0 :=
  balance_conservation demoNode2 demoAddressSet (by decide)

/-- The code of a decimal digit character. -/
theorem digitChar_toNat {m : Nat} (hm : m < 10) : (Nat.digitChar m).toNat = 48 + m := by
  interval_cases m <;> decide

/-- With fuel exceeding the rendered number, one run of the base-ten
digit loop writes some character run in front of its accumulator, and
`digitsVal` reads that run back to the number. -/
theorem toDigitsCore_spec (fuel : Nat) : ∀ (n : Nat) (acc : List Char), n < fuel →
    ∃ run : List Char,
      Nat.toDigitsCore 10 fuel n acc = run ++ acc ∧ digitsVal run = n := by
  induction fuel with
  | zero => intro n acc h; exact absurd h (Nat.not_lt_zero n)
  | succ fuel ih =>
    intro n acc hn
    rw [Nat.toDigitsCore]
    by_cases h10 : n / 10 = 0
    · rw [if_pos h10]
      refine ⟨[Nat.digitChar (n % 10)], rfl, ?_⟩
      simp only [digitsVal, List.foldl_cons, List.foldl_nil, Nat.zero_mul, Nat.zero_add]
      rw [digitChar_toNat (Nat.mod_lt n (by omega))]
      omega
    · rw [if_neg h10]
      have hfuel : n / 10 < fuel := by
        have hself : n / 10 < n := Nat.div_lt_self (by omega) (by omega)
        omega
      obtain ⟨run, hrun, hval⟩ := ih (n / 10) (Nat.digitChar (n % 10) :: acc) hfuel
      refine ⟨run ++ [Nat.digitChar (n % 10)], ?_, ?_⟩
      · rw [hrun, List.append_assoc]
        rfl
      · simp only [digitsVal, List.foldl_append, List.foldl_cons, List.foldl_nil]
        simp only [digitsVal] at hval
        rw [hval, digitChar_toNat (Nat.mod_lt n (by omega))]
        omega

/-- The decimal rendering `Nat.repr` is injective: its digit run reads
back to the number it renders. -/
theorem repr_injective : Function.Injective Nat.repr := by
  intro m n h
  obtain ⟨run1, h1, hv1⟩ := toDigitsCore_spec (m + 1) m [] (Nat.lt_succ_self m)
  obtain ⟨run2, h2, hv2⟩ := toDigitsCore_spec (n + 1) n [] (Nat.lt_succ_self n)
  have hm : Nat.repr m = run1.asString := by
    rw [Nat.repr, Nat.toDigits, h1, List.append_nil]
  have hn : Nat.repr n = run2.asString := by
    rw [Nat.repr, Nat.toDigits, h2, List.append_nil]
  have hruns : run1 = run2 := by
    have := congrArg String.data (hm ▸ hn ▸ h)
    simpa [List.asString] using this
  rw [← hv1, ← hv2, hruns]

/-- Two headers over the same first four fields and equal renderings
force equal nonces: the nonce is really mixed into the header, so a
changed nonce changes the header. -/
theorem get_header_nonce_inj (P : Prim) (b₁ b₂ : Block)
    (hnum : b₁.num = b₂.num) (hts : b₁.timestamp = b₂.timestamp)
    (hprev : b₁.prev_block_hash = b₂.prev_block_hash)
    (htx : b₁.transactions = b₂.transactions)
    (hh : b₁.get_header P = b₂.get_header P) : b₁.nonce = b₂.nonce := by
  simp only [Block.get_header, hnum, hts, hprev, htx] at hh
  have hd := congrArg String.data hh
  simp only [String.data_append] at hd
  have h1 := List.append_cancel_right hd
  have h2 := List.append_cancel_left h1
  exact repr_injective (String.ext h2)

/-- C9: `get_header` is the deterministic byte encoding of exactly the
five fields `(num, timestamp, prev_block_hash, nonce, transactions)` in
that order; `hash` returns the hex SHA-256 digest of `get_header`,
caches it in `block_hash`, and is a pure function of the current field
values — two blocks agreeing on the five header fields (whatever their
caches hold) render the same header and digest, and with the other four
fields fixed a different nonce renders a different header, so the nonce
is mixed into every digest computation. -/
theorem header_and_hash_spec (P : Prim) (b : Block) :
    (b.hash P = (P.sha256hex (b.get_header P),
      { b with block_hash := P.sha256hex (b.get_header P) })) ∧
    (b.get_header P = Nat.repr b.num ++ P.strFloat b.timestamp ++ b.prev_block_hash ++
      Nat.repr b.nonce ++ P.strTxList b.transactions) ∧
    (∀ b₂ : Block, b.num = b₂.num → b.timestamp = b₂.timestamp →
      b.prev_block_hash = b₂.prev_block_hash → b.nonce = b₂.nonce →
      b.transactions = b₂.transactions →
      b.get_header P = b₂.get_header P ∧ (b.hash P).1 = (b₂.hash P).1) ∧
    (∀ b₂ : Block, b.num = b₂.num → b.timestamp = b₂.timestamp →
      b.prev_block_hash = b₂.prev_block_hash → b.transactions = b₂.transactions →
      b.nonce ≠ b₂.nonce → b.get_header P ≠ b₂.get_header P) := by
  refine ⟨rfl, rfl, ?_, ?_⟩
  · intro b₂ hnum hts hprev hnonce htx
    have hh : b.get_header P = b₂.get_header P := by
      simp only [Block.get_header, hnum, hts, hprev, hnonce, htx]
    exact ⟨hh, by simp only [Block.hash, hh]⟩
  · intro b₂ hnum hts hprev htx hnonce hh
    exact hnonce (get_header_nonce_inj P b b₂ hnum hts hprev htx hh)

/-- C9 witness: the theorem applied to the genesis demo block, with the
nonce-mixing part instantiated at its nonce-incremented copy. -/
theorem header_and_hash_spec_witness :
    (demoBlock0.hash demoP = (demoP.sha256hex (demoBlock0.get_header demoP),
      { demoBlock0 with block_hash := demoP.sha256hex (demoBlock0.get_header demoP) })) ∧
    demoBlock0.get_header demoP ≠ nonceBlock.get_header demoP :=
  ⟨(header_and_hash_spec demoP demoBlock0).1,
   (header_and_hash_spec demoP demoBlock0).2.2.2 nonceBlock rfl rfl rfl rfl (by decide)⟩

/-- C10: `get_validation_failure_reason` on a transaction on which
`validate` has never failed — the `validation_failure_reason` attribute
was never created, as on any freshly constructed transaction — raises
`AttributeError` rather than returning `None`, despite the
`Optional[str]` annotation; called after a failed `validate` it returns
the recorded reason string. -/
theorem validation_failure_reason_spec (P : Prim) (t : Transaction) :
    (t.validation_failure_reason = none →
      t.get_validation_failure_reason = Except.error PyError.attributeError) ∧
    (P.rsaVerify (t.get_core_data P) t.signature t.sender_address = false →
      ((t.validate P).1).get_validation_failure_reason =
        Except.ok verificationFailedMsg) := by
  refine ⟨?_, ?_⟩
  · intro h
    simp [Transaction.get_validation_failure_reason, h]
  · intro h
    simp [Transaction.validate, Transaction.get_validation_failure_reason, h]

/-- C10 witness: the theorem applied to a freshly constructed demo
transaction under the failing demo verifier. -/
theorem validation_failure_reason_spec_witness :
    (fundlessTx.get_validation_failure_reason = Except.error PyError.attributeError) ∧
    ((fundlessTx.validate demoP).1.get_validation_failure_reason =
      Except.ok verificationFailedMsg) :=
  ⟨(validation_failure_reason_spec demoP fundlessTx).1 rfl,
   (validation_failure_reason_spec demoP fundlessTx).2 rfl⟩

end BlockChain
